import Mathlib

/-!
Verification development for `calcalt.c` (xmountains): the recursive
midpoint-displacement strip generator.

Modelling conventions:
* `Height` and `Length` are C doubles; they are modelled as `ℚ` (exact
  arithmetic).  Every property proved here is algebraic (averages, zero
  noise, structure), where rational and real arithmetic agree.
* The Gaussian source `gaussian()` is an injected capability: it is
  modelled as a stream `g : ℕ → ℚ` together with an explicit counter `k`
  of draws consumed so far; each call to `gaussian()` reads `g k` and
  advances the counter.
* `malloc` never fails in the model; `make_strip`'s uninitialised storage
  is modelled as zero-filled (every cell is overwritten before it is read
  by the reachable call paths, and `double_strip` stores an explicit `0`
  placeholder).
* The fatal error paths (`exit`) and NULL-pointer dereferences are
  modelled by `Except String`: a fatal branch returns `.error` and
  produces no output strip.
* C loops that write each cell of the output exactly once, reading only
  cells that the loop never writes, are rendered as a `List.range`/`map`
  closed form giving each index its written value.
-/

/-- Strip of height samples: struct `Strip { int level; Height *d; }` from
the missing header, modelled from the spec: `{ level, data }` with the
intended size `2^level + 1`. -/
structure Strip where
  level : ℕ
  d : List ℚ
deriving DecidableEq, Repr

/-- Size invariant for strips: a level-`L` strip has `2^L + 1` entries. -/
def wfStrip (s : Strip) : Prop := s.d.length = 2 ^ s.level + 1

instance : DecidablePred wfStrip := fun s => by unfold wfStrip; infer_instance

/-- Translation of `make_strip`: allocates a strip of `2^level + 1` cells;
the uninitialised cells are modelled as `0`. -/
def make_strip (level : ℕ) : Strip :=
  ⟨level, List.replicate (2 ^ level + 1) 0⟩

/-- Translation of `double_strip`: the loop emits `s->d[i]` then a `0`
placeholder for each `i < 2^level`, and finally `s->d[2^level]`; hence the
output cell at even index `j` holds `s->d[j/2]` and each odd cell holds
`0`, with `2*2^level + 1` cells in total and level one higher. -/
def double_strip (s : Strip) : Strip :=
  ⟨s.level + 1,
   (List.range (2 * 2 ^ s.level + 1)).map (fun j =>
     if j % 2 = 0 then s.d.getD (j / 2) 0 else 0)⟩

/-- Translation of `set_strip`: a level-`level` strip with every one of
its `2^level + 1` cells set to `value`. -/
def set_strip (level : ℕ) (value : ℚ) : Strip :=
  ⟨level, List.replicate (2 ^ level + 1) value⟩

/-- Translation of `side_update`: for `count = 2^(level-1)` iterations the
loop writes cell `2i+1` from the average of its (never written) even
neighbours `2i` and `2i+2` plus scaled noise, drawing one Gaussian per
iteration; all other cells keep their values.  Returns the updated strip
and the advanced draw counter. -/
def side_update (g : ℕ → ℚ) (s : Strip) (scale : ℚ) (k : ℕ) : Strip × ℕ :=
  let count := 2 ^ (s.level - 1)
  (⟨s.level,
    (List.range s.d.length).map (fun j =>
      if j % 2 = 1 ∧ j < 2 * count then
        scale * g (k + j / 2) + (s.d.getD (j - 1) 0 + s.d.getD (j + 1) 0) / 2
      else s.d.getD j 0)⟩,
   k + count)

/-- Translation of `mid_update` (C parameter names `left`, `new`, `right`;
`new` is rendered `nw`).  The level check is the C test
`left->level != new->level - 1 || new->level != right->level` over int
levels, taken in `ℤ`.  The loop writes the `2*2^(left->level) + 1` cells
of `nw` in order (which is all of them when `nw` satisfies the size
invariant), drawing one Gaussian per cell in index order: even cell `j`
gets `scale*g + (left[j/2] + right[j])/2`, odd cell `j` gets
`midscale*g + (left[j/2] + left[j/2+1] + right[j-1] + right[j+1])/4`, and
the trailing even cell is produced by the same formula as the interior
even cells. -/
def mid_update (g : ℕ → ℚ) (left nw right : Strip) (scale midscale : ℚ) (k : ℕ) :
    Except String (Strip × ℕ) :=
  if (left.level : ℤ) ≠ (nw.level : ℤ) - 1 ∨ nw.level ≠ right.level then
    .error "mid_update: inconsistant sizes"
  else
    let count := 2 ^ left.level
    .ok (⟨nw.level,
      (List.range (2 * count + 1)).map (fun j =>
        if j % 2 = 0 then
          scale * g (k + j) + (left.d.getD (j / 2) 0 + right.d.getD j 0) / 2
        else
          midscale * g (k + j) + (left.d.getD (j / 2) 0 + left.d.getD (j / 2 + 1) 0
            + right.d.getD (j - 1) 0 + right.d.getD (j + 1) 0) / 4)⟩,
     k + (2 * count + 1))

/-- Translation of `recalc` (the error message string is the source's own
copy-paste).  Writes only the even cells of `regen` (rendered `rg`),
reading its odd cells, which the pass never writes: cell `0` and the last
even cell `2*(count+1)` get 3-neighbour averages, interior even cells get
4-neighbour averages, each with fresh scaled noise, one Gaussian draw per
written cell in index order (`count + 2` draws in total). -/
def recalc (g : ℕ → ℚ) (left rg right : Strip) (scale : ℚ) (k : ℕ) :
    Except String (Strip × ℕ) :=
  if left.level ≠ rg.level ∨ rg.level ≠ right.level then
    .error "mid_update: inconsistant sizes"
  else
    let count := 2 ^ (rg.level - 1) - 1
    let last := 2 * (count + 1)
    .ok (⟨rg.level,
      (List.range rg.d.length).map (fun j =>
        if j = 0 then
          scale * g k + (left.d.getD 0 0 + rg.d.getD 1 0 + right.d.getD 0 0) / 3
        else if j % 2 = 0 ∧ j < last then
          scale * g (k + j / 2) + (left.d.getD j 0 + rg.d.getD (j + 1) 0
            + rg.d.getD (j - 1) 0 + right.d.getD j 0) / 4
        else if j = last then
          scale * g (k + count + 1) + (left.d.getD j 0 + rg.d.getD (j - 1) 0
            + right.d.getD j 0) / 3
        else rg.d.getD j 0)⟩,
     k + (count + 2))

/-- Modelled from the spec: the state enum of the missing header
`crinkle.h`.  `make_fold` initialises `state` to the literal `0` and the
spec fixes that a fresh Fold's first call executes the START phase, so
`START = 0`. -/
def START : ℕ := 0

/-- Modelled from the spec: the STORE member of the state enum of the
missing header `crinkle.h`; the value after START is `1`. -/
def STORE : ℕ := 1

/-- Record part of struct `Fold` from the missing header, modelled from
the spec: level, state, smoothing flag, mean, the two noise scales, and
the four nullable strip slots `new`, `working`, `regen`, `old`. -/
structure FoldP where
  level : ℕ
  state : ℕ
  smooth : Bool
  mean : ℚ
  scale : ℚ
  midscale : ℚ
  new : Option Strip
  working : Option Strip
  regen : Option Strip
  old : Option Strip
deriving DecidableEq, Repr

/-- A Fold chain: the nullable `next` pointer of struct `Fold` is encoded
by the constructor (`base` has a NULL `next`, `node` a non-NULL one). -/
inductive Fold where
  | base (p : FoldP)
  | node (p : FoldP) (next : Fold)
deriving DecidableEq, Repr

/-- Record part of a Fold (every field except `next`). -/
def Fold.p : Fold → FoldP
  | .base q => q
  | .node q _ => q

def Fold.level (f : Fold) : ℕ := f.p.level

def Fold.state (f : Fold) : ℕ := f.p.state

def Fold.smooth (f : Fold) : Bool := f.p.smooth

def Fold.mean (f : Fold) : ℚ := f.p.mean

def Fold.scale (f : Fold) : ℚ := f.p.scale

def Fold.midscale (f : Fold) : ℚ := f.p.midscale

def Fold.new (f : Fold) : Option Strip := f.p.new

def Fold.working (f : Fold) : Option Strip := f.p.working

def Fold.regen (f : Fold) : Option Strip := f.p.regen

def Fold.old (f : Fold) : Option Strip := f.p.old

/-- The `next` pointer of a Fold. -/
def Fold.next : Fold → Option Fold
  | .base _ => none
  | .node _ nf => some nf

/-- The immutable parameters of every node along a Fold chain, in order.
This is the identity of the chain a `next` pointer refers to: mutating a
Fold's state or strip slots leaves its skeleton unchanged. -/
def skeleton : Fold → List (ℕ × Bool × ℚ × ℚ × ℚ)
  | .base p => [(p.level, p.smooth, p.mean, p.scale, p.midscale)]
  | .node p nf => (p.level, p.smooth, p.mean, p.scale, p.midscale) :: skeleton nf

/-- Level-0 branch of `next_strip`: a fresh 2-cell strip whose cells are
`mean + scale*gaussian()` from two successive draws. -/
def strip0 (g : ℕ → ℚ) (p : FoldP) (k : ℕ) : Strip :=
  let s := make_strip 0
  ⟨s.level, (s.d.set 0 (p.mean + p.scale * g k)).set 1 (p.mean + p.scale * g (k + 1))⟩

/-- START branch of `next_strip` after the recursive call has produced the
coarser strip `nw` with the draw counter at `k1`: run `side_update` on
`regen`, allocate `working` and fill it by `mid_update`, optionally
`recalc` `regen`, store the updated slots, answer with the old strip and
move to STORE.  A NULL `regen`/`old` dereference (or a NULL strip handed
to the caller) is an error. -/
def start_rest (g : ℕ → ℚ) (p : FoldP) (nw : Strip) (k1 : ℕ) :
    Except String (Strip × FoldP × ℕ) :=
  match p.regen with
  | none => .error "null strip"
  | some rg =>
    let su := side_update g rg p.scale k1
    let wk := make_strip p.level
    match mid_update g nw wk su.1 p.scale p.midscale su.2 with
    | .error e => .error e
    | .ok (wk1, k3) =>
      if p.smooth then
        match p.old with
        | none => .error "null strip"
        | some od =>
          match recalc g wk1 su.1 od p.scale k3 with
          | .error e => .error e
          | .ok (rg2, k4) =>
            .ok (od, { p with new := some nw, working := some wk1,
                              regen := some rg2, state := STORE }, k4)
      else
        match p.old with
        | none => .error "null strip"
        | some od =>
          .ok (od, { p with new := some nw, working := some wk1,
                            regen := some su.1, state := STORE }, k3)

/-- STORE branch of `next_strip`: answer with `regen`, rotate
`old ← working` (a plain pointer copy, NULL allowed), null `working`,
rebuild `regen` by doubling `new`, free and null `new`, move to START. -/
def store_phase (p : FoldP) : Except String (Strip × FoldP) :=
  match p.regen with
  | none => .error "null strip"
  | some rg =>
    match p.new with
    | none => .error "null strip"
    | some nw =>
      .ok (rg, { p with old := p.working, working := none,
                        regen := some (double_strip nw), new := none,
                        state := START })

/-- Translation of `next_strip`.  Besides the produced strip it returns
the updated Fold, the advanced Gaussian draw counter, and the number of
times this call invoked `next_strip` on `fold->next` (read off the code:
the START branch contains exactly one such call, the STORE and level-0
branches none).  The C `switch` with `default: exit(3)` becomes the final
error; calling through a NULL `next` pointer is an error as well. -/
def next_strip (g : ℕ → ℚ) : Fold → ℕ → Except String (Strip × Fold × ℕ × ℕ)
  | .base p, k =>
    if p.level = 0 then .ok (strip0 g p k, .base p, k + 2, 0)
    else if p.state = START then .error "null next fold"
    else if p.state = STORE then
      match store_phase p with
      | .error e => .error e
      | .ok (r, p') => .ok (r, .base p', k, 0)
    else .error "next_strip: invalid state"
  | .node p nf, k =>
    if p.level = 0 then .ok (strip0 g p k, .node p nf, k + 2, 0)
    else if p.state = START then
      match next_strip g nf k with
      | .error e => .error e
      | .ok (nw, nf', k1, _) =>
        match start_rest g p nw k1 with
        | .error e => .error e
        | .ok (r, p', k') => .ok (r, .node p' nf', k', 1)
    else if p.state = STORE then
      match store_phase p with
      | .error e => .error e
      | .ok (r, p') => .ok (r, .node p' nf, k, 0)
    else .error "next_strip: invalid state"

/-- Translation of `make_fold`, with the C argument order
`(levels, smooth, length, start, mean, fdim)`.  The C computes
`scale = pow(length, 2*fdim)` and `midscale = pow(length*sqrt(2), 2*fdim)`
with the C library `pow`; real exponentiation is not rational, so the map
from the level's `length` to the pair `(scale, midscale)` is passed as an
opaque parameter `sfn` in place of `fdim` (quantifying over `sfn` covers
every fractal dimension).  For `levels > 0` the node seeds `regen` and
`old` flat at height `start` and recurses with the length doubled; the
level-0 node leaves every slot NULL.  `state` is initialised to `0`
(START). -/
def make_fold : ℕ → Bool → ℚ → ℚ → ℚ → (ℚ → ℚ × ℚ) → Fold
  | 0, smooth, length, _start, mean, sfn =>
    .base ⟨0, START, smooth, mean, (sfn length).1, (sfn length).2,
           none, none, none, none⟩
  | l + 1, smooth, length, start, mean, sfn =>
    .node ⟨l + 1, START, smooth, mean, (sfn length).1, (sfn length).2,
           none, none, some (set_strip (l + 1) start), some (set_strip (l + 1) start)⟩
          (make_fold l smooth (2 * length) start mean sfn)

/-- Run `n` calls of `next_strip`, keeping the final Fold and counter. -/
def run_next (g : ℕ → ℚ) : ℕ → Fold → ℕ → Except String (Fold × ℕ)
  | 0, f, k => .ok (f, k)
  | n + 1, f, k =>
    match next_strip g f k with
    | .error e => .error e
    | .ok (_, f', k', _) => run_next g n f' k'

/-- The strip produced by the `(n+1)`-st call of `next_strip` (0-indexed:
`strip_at g 0 f k` is the first call's result). -/
def strip_at (g : ℕ → ℚ) : ℕ → Fold → ℕ → Except String Strip
  | 0, f, k =>
    match next_strip g f k with
    | .error e => .error e
    | .ok (r, _, _, _) => .ok r
  | n + 1, f, k =>
    match next_strip g f k with
    | .error e => .error e
    | .ok (_, f', k', _) => strip_at g n f' k'

/-- Total number of `next_strip` invocations on `fold->next` made by the
next `n` calls of `next_strip` on the Fold. -/
def child_calls_in (g : ℕ → ℚ) : ℕ → Fold → ℕ → ℕ
  | 0, _, _ => 0
  | n + 1, f, k =>
    match next_strip g f k with
    | .error _ => 0
    | .ok (_, f', k', c) => c + child_calls_in g n f' k'

/-- A strip slot holding a well-formed strip of level `L`. -/
def goodSlot (L : ℕ) (o : Option Strip) : Prop :=
  ∃ s, o = some s ∧ s.level = L ∧ s.d.length = 2 ^ L + 1

/-- Reachable-state invariant of a Fold chain: levels descend by one to a
level-0 tail; every node above level 0 is in state START or STORE; in
START the `new`/`working` slots are NULL and `regen`/`old` hold
well-formed strips of the node's level; in STORE all four slots hold
well-formed strips, `new` one level coarser. -/
def FoldInv : Fold → Prop
  | .base p => p.level = 0
  | .node p nf =>
    p.level = nf.level + 1 ∧ FoldInv nf ∧
    (p.state = START ∨ p.state = STORE) ∧
    (p.state = START →
      p.new = none ∧ p.working = none ∧
      goodSlot p.level p.regen ∧ goodSlot p.level p.old) ∧
    (p.state = STORE →
      goodSlot nf.level p.new ∧ goodSlot p.level p.working ∧
      goodSlot p.level p.regen ∧ goodSlot p.level p.old)

/-- Every cell of the strip equals `v`. -/
def allVal (v : ℚ) (s : Strip) : Prop :=
  ∀ j < s.d.length, s.d.getD j 0 = v

/-- Every even-indexed cell of the strip equals `v`. -/
def evenVal (v : ℚ) (s : Strip) : Prop :=
  ∀ j < s.d.length, j % 2 = 0 → s.d.getD j 0 = v

/-- Value invariant under the zero Gaussian source and disabled
smoothing, for a chain whose mean is `v`: strips held in START state have
`v` at every even cell of `regen` (its odd cells are placeholders) and at
every cell of `old`; in STORE state every held strip is constantly `v`. -/
def ZInv (v : ℚ) : Fold → Prop
  | .base p => p.mean = v ∧ p.smooth = false
  | .node p nf =>
    p.mean = v ∧ p.smooth = false ∧ ZInv v nf ∧
    (p.state = START →
      (∀ s, p.regen = some s → evenVal v s) ∧
      (∀ s, p.old = some s → allVal v s)) ∧
    (p.state = STORE →
      (∀ s, p.new = some s → allVal v s) ∧
      (∀ s, p.working = some s → allVal v s) ∧
      (∀ s, p.regen = some s → allVal v s) ∧
      (∀ s, p.old = some s → allVal v s))


/-! ## Helper lemmas -/

theorem START_val : START = 0 := rfl

theorem STORE_val : STORE = 1 := rfl

theorem getD_map_range (f : ℕ → ℚ) (n j : ℕ) :
    ((List.range n).map f).getD j 0 = if j < n then f j else 0 := by
  rcases lt_or_le j n with h | h
  · rw [List.getD_eq_getElem?_getD, List.getElem?_map, List.getElem?_range h]
    simp [h]
  · rw [List.getD_eq_getElem?_getD, List.getElem?_eq_none (by simpa using h)]
    simp [Nat.not_lt.mpr h]

theorem getD_replicate (v : ℚ) (n j : ℕ) :
    (List.replicate n v).getD j 0 = if j < n then v else 0 := by
  rw [List.getD_eq_getElem?_getD, List.getElem?_replicate]
  by_cases h : j < n <;> simp [h]

theorem side_update_level (g : ℕ → ℚ) (s : Strip) (scale : ℚ) (k : ℕ) :
    ((side_update g s scale k).1).level = s.level := rfl

theorem side_update_length (g : ℕ → ℚ) (s : Strip) (scale : ℚ) (k : ℕ) :
    ((side_update g s scale k).1).d.length = s.d.length := by
  simp [side_update]

theorem side_update_counter (g : ℕ → ℚ) (s : Strip) (scale : ℚ) (k : ℕ) :
    (side_update g s scale k).2 = k + 2 ^ (s.level - 1) := rfl

theorem side_update_getD (g : ℕ → ℚ) (s : Strip) (scale : ℚ) (k j : ℕ) :
    ((side_update g s scale k).1).d.getD j 0 =
      if j < s.d.length then
        (if j % 2 = 1 ∧ j < 2 * 2 ^ (s.level - 1) then
          scale * g (k + j / 2) + (s.d.getD (j - 1) 0 + s.d.getD (j + 1) 0) / 2
        else s.d.getD j 0)
      else 0 := by
  simp only [side_update]
  rw [getD_map_range]

theorem two_mul_pow_pred {L : ℕ} (h : 1 ≤ L) : 2 * 2 ^ (L - 1) = 2 ^ L := by
  rcases Nat.exists_eq_add_of_le h with ⟨m, rfl⟩
  rw [Nat.add_sub_cancel_left, pow_add, pow_one]

theorem side_update_allVal {v : ℚ} {s : Strip} (g : ℕ → ℚ) (scale : ℚ) (k : ℕ)
    (hg : ∀ i, g i = 0) (h1 : 1 ≤ s.level)
    (hlen : s.d.length = 2 ^ s.level + 1) (he : evenVal v s) :
    allVal v ((side_update g s scale k).1) := by
  have h2 : 2 * 2 ^ (s.level - 1) = 2 ^ s.level := two_mul_pow_pred h1
  intro j hj
  rw [side_update_length] at hj
  rw [side_update_getD, if_pos hj]
  by_cases hpar : j % 2 = 1
  · have hcnt : j < 2 * 2 ^ (s.level - 1) := by omega
    rw [if_pos ⟨hpar, hcnt⟩, hg]
    have hb1 : j - 1 < s.d.length := by omega
    have hb2 : j + 1 < s.d.length := by omega
    rw [he _ hb1 (by omega), he _ hb2 (by omega)]
    ring
  · rw [if_neg (by tauto)]
    exact he _ hj (by omega)

theorem mid_update_spec {left nw right : Strip} (g : ℕ → ℚ) (scale midscale : ℚ) (k : ℕ)
    (h1 : left.level + 1 = nw.level) (h2 : nw.level = right.level) :
    ∃ r, mid_update g left nw right scale midscale k =
        .ok (r, k + (2 * 2 ^ left.level + 1)) ∧
      r.level = nw.level ∧ r.d.length = 2 * 2 ^ left.level + 1 ∧
      ∀ j < 2 * 2 ^ left.level + 1, r.d.getD j 0 =
        (if j % 2 = 0 then
          scale * g (k + j) + (left.d.getD (j / 2) 0 + right.d.getD j 0) / 2
        else
          midscale * g (k + j) + (left.d.getD (j / 2) 0 + left.d.getD (j / 2 + 1) 0
            + right.d.getD (j - 1) 0 + right.d.getD (j + 1) 0) / 4) := by
  have hc : ¬ ((left.level : ℤ) ≠ (nw.level : ℤ) - 1 ∨ nw.level ≠ right.level) := by
    push_neg
    constructor
    · omega
    · exact h2
  simp only [mid_update, if_neg hc]
  refine ⟨_, rfl, rfl, ?_, ?_⟩
  · simp
  · intro j hj
    simp only [getD_map_range, if_pos hj]

theorem recalc_spec {left rg right : Strip} (g : ℕ → ℚ) (scale : ℚ) (k : ℕ)
    (h1 : left.level = rg.level) (h2 : rg.level = right.level) :
    ∃ r, recalc g left rg right scale k =
        .ok (r, k + (2 ^ (rg.level - 1) - 1 + 2)) ∧
      r.level = rg.level ∧ r.d.length = rg.d.length := by
  have hc : ¬ (left.level ≠ rg.level ∨ rg.level ≠ right.level) := by
    push_neg
    exact ⟨h1, h2⟩
  simp only [recalc, if_neg hc]
  refine ⟨_, rfl, rfl, ?_⟩
  simp

theorem double_strip_level (s : Strip) : (double_strip s).level = s.level + 1 := rfl

theorem double_strip_length (s : Strip) :
    (double_strip s).d.length = 2 * 2 ^ s.level + 1 := by
  simp [double_strip]

theorem double_strip_getD (s : Strip) (j : ℕ) :
    (double_strip s).d.getD j 0 =
      if j < 2 * 2 ^ s.level + 1 then
        (if j % 2 = 0 then s.d.getD (j / 2) 0 else 0)
      else 0 := by
  simp only [double_strip]
  rw [getD_map_range]

theorem double_strip_evenVal {v : ℚ} {s : Strip}
    (hlen : s.d.length = 2 ^ s.level + 1) (h : allVal v s) :
    evenVal v (double_strip s) := by
  intro j hj hpar
  rw [double_strip_length] at hj
  rw [double_strip_getD, if_pos hj, if_pos hpar]
  exact h _ (by omega)

theorem mid_formula_allVal {v : ℚ} {left right : Strip} (g : ℕ → ℚ)
    (scale midscale : ℚ) (k j : ℕ) (hg : ∀ i, g i = 0)
    (hl : allVal v left) (hr : allVal v right)
    (hll : left.d.length = 2 ^ left.level + 1)
    (hrl : right.d.length = 2 * 2 ^ left.level + 1)
    (hj : j < 2 * 2 ^ left.level + 1) :
    (if j % 2 = 0 then
      scale * g (k + j) + (left.d.getD (j / 2) 0 + right.d.getD j 0) / 2
    else
      midscale * g (k + j) + (left.d.getD (j / 2) 0 + left.d.getD (j / 2 + 1) 0
        + right.d.getD (j - 1) 0 + right.d.getD (j + 1) 0) / 4) = v := by
  by_cases hpar : j % 2 = 0
  · rw [if_pos hpar, hg, hl _ (by omega), hr _ (by omega)]
    ring
  · rw [if_neg hpar, hg, hl _ (by omega), hl _ (by omega), hr _ (by omega),
      hr _ (by omega)]
    ring

theorem store_ne_start : ¬ STORE = START := by
  simp [START, STORE]

theorem next_strip_main (g : ℕ → ℚ) (v : ℚ) :
    ∀ (f : Fold) (k : ℕ), FoldInv f →
      ∃ r f' k' c, next_strip g f k = .ok (r, f', k', c) ∧
        r.level = f.level ∧ r.d.length = 2 ^ f.level + 1 ∧
        FoldInv f' ∧ skeleton f' = skeleton f ∧
        f'.level = f.level ∧ f'.smooth = f.smooth ∧ f'.mean = f.mean ∧
        f'.scale = f.scale ∧ f'.midscale = f.midscale ∧
        (f.level = 0 → f' = f ∧ c = 0) ∧
        (1 ≤ f.level → f.state = START →
          f'.state = STORE ∧ c = 1 ∧ f'.old = f.old ∧ f.old = some r) ∧
        (1 ≤ f.level → f.state = STORE →
          f'.state = START ∧ c = 0 ∧ f'.old = f.working ∧ f'.next = f.next) ∧
        ((∀ i, g i = 0) → ZInv v f → allVal v r ∧ ZInv v f') := by
  intro f
  induction f with
  | base p =>
    intro k hinv
    have hl : p.level = 0 := hinv
    refine ⟨strip0 g p k, .base p, k + 2, 0, ?_, ?_, ?_, hinv, rfl, rfl, rfl, rfl,
      rfl, rfl, fun _ => ⟨rfl, rfl⟩, ?_, ?_, ?_⟩
    · simp [next_strip, hl]
    · simp [strip0, make_strip, Fold.level, Fold.p, hl]
    · simp [strip0, make_strip, Fold.level, Fold.p, hl]
    · intro h
      simp [Fold.level, Fold.p, hl] at h
    · intro h
      simp [Fold.level, Fold.p, hl] at h
    · intro hg hz
      simp only [ZInv] at hz
      obtain ⟨hm, hs⟩ := hz
      constructor
      · intro j hj
        simp only [strip0, make_strip] at hj ⊢
        simp only [List.length_set] at hj
        simp at hj
        interval_cases j <;> simp [hg, hm]
      · simp only [ZInv]
        exact ⟨hm, hs⟩
  | node p nf ih =>
    intro k hinv
    simp only [FoldInv] at hinv
    obtain ⟨hlev, hsub, hst, hSTART, hSTORE⟩ := hinv
    have hl0 : ¬ p.level = 0 := by omega
    rcases hst with hs0 | hs1
    · -- START phase
      obtain ⟨hnewN, hworkN, hrgG, hodG⟩ := hSTART hs0
      obtain ⟨rg, hrg, hrglev, hrglen⟩ := hrgG
      obtain ⟨od, hod, hodlev, hodlen⟩ := hodG
      obtain ⟨nwS, nf', k1, c0, heqN, hNlev, hNlen, hNinv, hNskel, hNl, hNsm,
        hNme, hNsc, hNms, hN0, hNst1, hNst2, hNval⟩ := ih k hsub
      have hmid1 : nwS.level + 1 = (make_strip p.level).level := by
        simp only [make_strip]
        omega
      have hsulev : ((side_update g rg p.scale k1).1).level = rg.level := rfl
      have hsulen : ((side_update g rg p.scale k1).1).d.length = rg.d.length :=
        side_update_length g rg p.scale k1
      have hmid2 : (make_strip p.level).level = ((side_update g rg p.scale k1).1).level := by
        simp only [make_strip]
        rw [hsulev, hrglev]
      obtain ⟨wk1, hmide, hwk1lev, hwk1len, hwk1get⟩ :=
        mid_update_spec g p.scale p.midscale ((side_update g rg p.scale k1).2) hmid1 hmid2
      have hwk1lev' : wk1.level = p.level := by
        rw [hwk1lev]
        simp [make_strip]
      have hwk1len' : wk1.d.length = 2 ^ p.level + 1 := by
        rw [hwk1len, hNlev, hlev]
        rw [pow_succ]
        ring
      by_cases hsm : p.smooth
      · -- smoothing enabled: recalc runs on (working, regen, old)
        have hrc1 : wk1.level = ((side_update g rg p.scale k1).1).level := by
          rw [hwk1lev', hsulev, hrglev]
        have hrc2 : ((side_update g rg p.scale k1).1).level = od.level := by
          rw [hsulev, hrglev, hodlev]
        obtain ⟨rg2, hrece, hrg2lev, hrg2len⟩ :=
          recalc_spec g p.scale ((side_update g rg p.scale k1).2 + (2 * 2 ^ nwS.level + 1)) hrc1 hrc2
        have heq : next_strip g (.node p nf) k =
            .ok (od,
              Fold.node
                { p with new := some nwS, working := some wk1,
                         regen := some rg2, state := STORE } nf',
              (side_update g rg p.scale k1).2 + (2 * 2 ^ nwS.level + 1)
                + (2 ^ (((side_update g rg p.scale k1).1).level - 1) - 1 + 2), 1) := by
          simp only [next_strip, if_neg hl0, hs0, eq_self_iff_true, if_true, heqN,
            start_rest, hrg, hmide, if_pos hsm, hod, hrece]
        refine ⟨od, _, _, 1, heq, ?_, ?_, ?_, ?_, ?_, ?_, ?_, ?_, ?_, ?_, ?_, ?_, ?_⟩
        · simpa [Fold.level, Fold.p] using hodlev
        · exact hodlen
        · -- FoldInv of the updated fold
          simp only [FoldInv]
          refine ⟨?_, hNinv, Or.inr (by trivial), ?_, ?_⟩
          · rw [hNl]
            exact hlev
          · intro h
            simp [START, STORE] at h
          · intro _
            refine ⟨⟨nwS, rfl, ?_, ?_⟩, ⟨wk1, rfl, hwk1lev', hwk1len'⟩,
              ⟨rg2, rfl, ?_, ?_⟩, ⟨od, hod, hodlev, hodlen⟩⟩
            · rw [hNlev, hNl]
            · rw [hNlen, hNl]
            · rw [hrg2lev, hsulev, hrglev]
            · rw [hrg2len, hsulen, hrglen]
        · simp only [skeleton]
          rw [hNskel]
        · simp [Fold.level, Fold.p]
        · simp [Fold.smooth, Fold.p]
        · simp [Fold.mean, Fold.p]
        · simp [Fold.scale, Fold.p]
        · simp [Fold.midscale, Fold.p]
        · intro h
          simp [Fold.level, Fold.p] at h
          omega
        · intro _ _
          refine ⟨rfl, rfl, ?_, ?_⟩
          · simp [Fold.old, Fold.p]
          · simp only [Fold.old, Fold.p]
            exact hod
        · intro _ h
          simp only [Fold.state, Fold.p] at h
          rw [hs0] at h
          simp [START, STORE] at h
        · -- under the zero source the smoothing flag contradicts ZInv
          intro hg hz
          simp only [ZInv] at hz
          obtain ⟨hzm, hzs, _⟩ := hz
          rw [hzs] at hsm
          simp at hsm
      · -- smoothing disabled
        have heq : next_strip g (.node p nf) k =
            .ok (od,
              Fold.node
                { p with new := some nwS, working := some wk1,
                         regen := some ((side_update g rg p.scale k1).1),
                         state := STORE } nf',
              (side_update g rg p.scale k1).2 + (2 * 2 ^ nwS.level + 1), 1) := by
          simp only [next_strip, if_neg hl0, hs0, eq_self_iff_true, if_true, heqN,
            start_rest, hrg, hmide, if_neg hsm, hod]
        refine ⟨od, _, _, 1, heq, ?_, ?_, ?_, ?_, ?_, ?_, ?_, ?_, ?_, ?_, ?_, ?_, ?_⟩
        · simpa [Fold.level, Fold.p] using hodlev
        · exact hodlen
        · simp only [FoldInv]
          refine ⟨?_, hNinv, Or.inr (by trivial), ?_, ?_⟩
          · rw [hNl]
            exact hlev
          · intro h
            simp [START, STORE] at h
          · intro _
            refine ⟨⟨nwS, rfl, ?_, ?_⟩, ⟨wk1, rfl, hwk1lev', hwk1len'⟩,
              ⟨(side_update g rg p.scale k1).1, rfl, ?_, ?_⟩,
              ⟨od, hod, hodlev, hodlen⟩⟩
            · rw [hNlev, hNl]
            · rw [hNlen, hNl]
            · rw [hsulev, hrglev]
            · rw [hsulen, hrglen]
        · simp only [skeleton]
          rw [hNskel]
        · simp [Fold.level, Fold.p]
        · simp [Fold.smooth, Fold.p]
        · simp [Fold.mean, Fold.p]
        · simp [Fold.scale, Fold.p]
        · simp [Fold.midscale, Fold.p]
        · intro h
          simp [Fold.level, Fold.p] at h
          omega
        · intro _ _
          refine ⟨rfl, rfl, ?_, ?_⟩
          · simp [Fold.old, Fold.p]
          · simp only [Fold.old, Fold.p]
            exact hod
        · intro _ h
          simp only [Fold.state, Fold.p] at h
          rw [hs0] at h
          simp [START, STORE] at h
        · -- zero-source value preservation
          intro hg hz
          simp only [ZInv] at hz
          obtain ⟨hzm, hzs, hznf, hzSTART, hzSTORE⟩ := hz
          obtain ⟨hrgEv, hodAll⟩ := hzSTART hs0
          have hrgEv' : evenVal v rg := hrgEv rg hrg
          have hodAll' : allVal v od := hodAll od hod
          obtain ⟨hnwAll, hznf'⟩ := hNval hg hznf
          have hrg1lev : 1 ≤ rg.level := by omega
          have hrglen' : rg.d.length = 2 ^ rg.level + 1 := by rw [hrglev, hrglen]
          have hsuAll : allVal v ((side_update g rg p.scale k1).1) :=
            side_update_allVal g p.scale k1 hg hrg1lev hrglen' hrgEv'
          have hwkAll : allVal v wk1 := by
            intro j hj
            rw [hwk1len] at hj
            rw [hwk1get j hj]
            refine mid_formula_allVal g p.scale p.midscale _ j hg hnwAll hsuAll ?_ ?_ hj
            · rw [hNlen, hNlev]
            · rw [hsulen, hrglen, ← two_mul_pow_pred (show 1 ≤ p.level by omega)]
              have hpl : p.level - 1 = nwS.level := by omega
              rw [hpl]
          refine ⟨hodAll', ?_⟩
          simp only [ZInv]
          refine ⟨hzm, hzs, hznf', ?_, ?_⟩
          · intro h
            simp [START, STORE] at h
          · intro _
            refine ⟨?_, ?_, ?_, ?_⟩
            · intro s hs
              rw [Option.some_inj] at hs
              rw [← hs]
              exact hnwAll
            · intro s hs
              rw [Option.some_inj] at hs
              rw [← hs]
              exact hwkAll
            · intro s hs
              rw [Option.some_inj] at hs
              rw [← hs]
              exact hsuAll
            · intro s hs
              rw [hod, Option.some_inj] at hs
              rw [← hs]
              exact hodAll'
    · -- STORE phase
      obtain ⟨hnwG, hwkG, hrgG, hodG⟩ := hSTORE hs1
      obtain ⟨nwS, hnw, hnwlev, hnwlen⟩ := hnwG
      obtain ⟨wkS, hwk, hwklev, hwklen⟩ := hwkG
      obtain ⟨rgS, hrg, hrglev, hrglen⟩ := hrgG
      obtain ⟨odS, hod, hodlev, hodlen⟩ := hodG
      have hs01 : ¬ p.state = START := by
        rw [hs1]
        simp [START, STORE]
      have heq : next_strip g (.node p nf) k =
          .ok (rgS,
            Fold.node
              { p with old := p.working, working := none,
                       regen := some (double_strip nwS), new := none,
                       state := START } nf,
            k, 0) := by
        simp only [next_strip, if_neg hl0, hs1, if_neg store_ne_start,
          eq_self_iff_true, if_true, store_phase, hrg, hnw]
      refine ⟨rgS, _, k, 0, heq, ?_, ?_, ?_, ?_, ?_, ?_, ?_, ?_, ?_, ?_, ?_, ?_, ?_⟩
      · simpa [Fold.level, Fold.p] using hrglev
      · exact hrglen
      · simp only [FoldInv]
        refine ⟨hlev, hsub, Or.inl (by trivial), ?_, ?_⟩
        · intro _
          refine ⟨by trivial, by trivial, ⟨double_strip nwS, rfl, ?_, ?_⟩,
            ⟨wkS, hwk, hwklev, hwklen⟩⟩
          · rw [double_strip_level, hnwlev]
            omega
          · rw [double_strip_length, hnwlev, hlev, pow_succ]
            ring
        · intro h
          simp [START, STORE] at h
      · simp only [skeleton]
      · simp [Fold.level, Fold.p]
      · simp [Fold.smooth, Fold.p]
      · simp [Fold.mean, Fold.p]
      · simp [Fold.scale, Fold.p]
      · simp [Fold.midscale, Fold.p]
      · intro h
        simp [Fold.level, Fold.p] at h
        omega
      · intro _ h
        simp only [Fold.state, Fold.p] at h
        rw [hs1] at h
        simp [START, STORE] at h
      · intro _ _
        refine ⟨rfl, rfl, rfl, rfl⟩
      · intro hg hz
        simp only [ZInv] at hz
        obtain ⟨hzm, hzs, hznf, hzSTART, hzSTORE⟩ := hz
        obtain ⟨hznw, hzwk, hzrg, hzod⟩ := hzSTORE hs1
        have hnwAll : allVal v nwS := hznw nwS hnw
        have hrgAll : allVal v rgS := hzrg rgS hrg
        have hwkAll : allVal v wkS := hzwk wkS hwk
        refine ⟨hrgAll, ?_⟩
        simp only [ZInv]
        refine ⟨hzm, hzs, hznf, ?_, ?_⟩
        · intro _
          refine ⟨?_, ?_⟩
          · intro s hs
            rw [Option.some_inj] at hs
            rw [← hs]
            refine double_strip_evenVal ?_ hnwAll
            rw [hnwlen, hnwlev]
          · intro s hs
            rw [hwk, Option.some_inj] at hs
            rw [← hs]
            exact hwkAll
        · intro h
          simp [START, STORE] at h

theorem set_strip_allVal (L : ℕ) (v : ℚ) : allVal v (set_strip L v) := by
  intro j hj
  simp only [set_strip, List.length_replicate] at hj
  simp only [set_strip]
  rw [getD_replicate, if_pos hj]

theorem allVal_evenVal {v : ℚ} {s : Strip} (h : allVal v s) : evenVal v s :=
  fun j hj _ => h j hj

theorem make_fold_level (levels : ℕ) (smooth : Bool) (length start mean : ℚ)
    (sfn : ℚ → ℚ × ℚ) :
    (make_fold levels smooth length start mean sfn).level = levels := by
  cases levels <;> simp [make_fold, Fold.level, Fold.p]

theorem make_fold_inv :
    ∀ (levels : ℕ) (smooth : Bool) (length start mean : ℚ) (sfn : ℚ → ℚ × ℚ),
      FoldInv (make_fold levels smooth length start mean sfn) := by
  intro levels
  induction levels with
  | zero =>
    intro smooth length start mean sfn
    simp [make_fold, FoldInv, Fold.level, Fold.p]
  | succ l ih =>
    intro smooth length start mean sfn
    simp only [make_fold, FoldInv]
    refine ⟨?_, ih smooth (2 * length) start mean sfn, Or.inl (by trivial), ?_, ?_⟩
    · rw [make_fold_level]
    · intro _
      refine ⟨by trivial, by trivial, ⟨set_strip (l + 1) start, rfl, rfl, ?_⟩,
        ⟨set_strip (l + 1) start, rfl, rfl, ?_⟩⟩ <;> simp [set_strip]
    · intro h
      simp [START, STORE] at h

theorem make_fold_zinv :
    ∀ (levels : ℕ) (length mean : ℚ) (sfn : ℚ → ℚ × ℚ),
      ZInv mean (make_fold levels false length mean mean sfn) := by
  intro levels
  induction levels with
  | zero =>
    intro length mean sfn
    simp [make_fold, ZInv]
  | succ l ih =>
    intro length mean sfn
    simp only [make_fold, ZInv]
    refine ⟨by trivial, by trivial, ih (2 * length) mean sfn, ?_, ?_⟩
    · intro _
      constructor
      · intro s hs
        rw [Option.some_inj] at hs
        rw [← hs]
        exact allVal_evenVal (set_strip_allVal (l + 1) mean)
      · intro s hs
        rw [Option.some_inj] at hs
        rw [← hs]
        exact set_strip_allVal (l + 1) mean
    · intro h
      simp [START, STORE] at h

theorem state_cases {f : Fold} (h : FoldInv f) (hl : 1 ≤ f.level) :
    f.state = START ∨ f.state = STORE := by
  cases f with
  | base p =>
    simp only [FoldInv] at h
    simp [Fold.level, Fold.p, h] at hl
  | node p nf =>
    simp only [FoldInv] at h
    exact h.2.2.1

theorem run_next_inv (g : ℕ → ℚ) (v : ℚ) :
    ∀ (n : ℕ) (f : Fold) (k : ℕ), FoldInv f →
      ∃ f' k', run_next g n f k = .ok (f', k') ∧ FoldInv f' ∧
        skeleton f' = skeleton f ∧ f'.level = f.level ∧
        ((∀ i, g i = 0) → ZInv v f → ZInv v f') := by
  intro n
  induction n with
  | zero =>
    intro f k hinv
    exact ⟨f, k, rfl, hinv, rfl, rfl, fun _ hz => hz⟩
  | succ n ih =>
    intro f k hinv
    obtain ⟨r1, f1, k1, c1, heq1, _, _, hinv1, hskel1, hlev1, _, _, _, _, _, _, _,
      hval1⟩ := next_strip_main g v f k hinv
    obtain ⟨f', k', heq2, hinv', hskel', hlev', hval'⟩ := ih f1 k1 hinv1
    refine ⟨f', k', ?_, hinv', ?_, ?_, ?_⟩
    · simp only [run_next, heq1]
      exact heq2
    · rw [hskel', hskel1]
    · rw [hlev', hlev1]
    · intro hg hz
      exact hval' hg (hval1 hg hz).2

theorem strip_at_spec (g : ℕ → ℚ) (v : ℚ) :
    ∀ (n : ℕ) (f : Fold) (k : ℕ), FoldInv f →
      ∃ r, strip_at g n f k = .ok r ∧ r.level = f.level ∧
        r.d.length = 2 ^ f.level + 1 ∧
        ((∀ i, g i = 0) → ZInv v f → allVal v r) := by
  intro n
  induction n with
  | zero =>
    intro f k hinv
    obtain ⟨r, f', k', c, heq, hrl, hrlen, _, _, _, _, _, _, _, _, _, _, hval⟩ :=
      next_strip_main g v f k hinv
    refine ⟨r, ?_, hrl, hrlen, fun hg hz => (hval hg hz).1⟩
    simp only [strip_at, heq]
  | succ n ih =>
    intro f k hinv
    obtain ⟨r1, f1, k1, c1, heq1, _, _, hinv1, _, hlev1, _, _, _, _, _, _, _,
      hval1⟩ := next_strip_main g v f k hinv
    obtain ⟨r, heq2, hrl, hrlen, hval⟩ := ih f1 k1 hinv1
    refine ⟨r, ?_, ?_, ?_, ?_⟩
    · simp only [strip_at, heq1]
      exact heq2
    · rw [hrl, hlev1]
    · rw [hrlen, hlev1]
    · intro hg hz
      exact hval hg (hval1 hg hz).2

theorem child_calls_pair (g : ℕ → ℚ) :
    ∀ (j : ℕ) (f : Fold) (k : ℕ), FoldInv f → 1 ≤ f.level →
      child_calls_in g (2 * j) f k = j := by
  intro j
  induction j with
  | zero =>
    intro f k _ _
    rfl
  | succ j ih =>
    intro f k hinv hl
    obtain ⟨r1, f1, k1, c1, heq1, _, _, hinv1, _, hlev1, _, _, _, _, _, hA1, hB1,
      _⟩ := next_strip_main g 0 f k hinv
    obtain ⟨r2, f2, k2, c2, heq2, _, _, hinv2, _, hlev2, _, _, _, _, _, hA2, hB2,
      _⟩ := next_strip_main g 0 f1 k1 hinv1
    have hf1l : 1 ≤ f1.level := by omega
    have hf2l : 1 ≤ f2.level := by omega
    have hrec := ih f2 k2 hinv2 hf2l
    have h2 : 2 * (j + 1) = 2 * j + 1 + 1 := by ring
    rw [h2]
    simp only [child_calls_in, heq1, heq2]
    rcases state_cases hinv hl with hs | hs
    · obtain ⟨hst1, hc1, _, _⟩ := hA1 hl hs
      obtain ⟨_, hc2, _, _⟩ := hB2 hf1l hst1
      omega
    · obtain ⟨hst1, hc1, _, _⟩ := hB1 hl hs
      obtain ⟨_, hc2, _, _⟩ := hA2 hf1l hst1
      omega

/-! ## Claim theorems -/

/-- C4: for every Strip `s` of level `L`, `double_strip s` returns a fresh
Strip of level `L+1` with `2^(L+1)+1` entries such that entry `2i` equals
`s`'s entry `i` for every `0 ≤ i ≤ 2^L` and entry `2i+1` is the
placeholder `0` for every `0 ≤ i < 2^L`.  `double_strip` is a pure
function of `s`, so `s` itself is left unchanged. -/
theorem claim_C4 (s : Strip) (h : wfStrip s) :
    (double_strip s).level = s.level + 1 ∧
    (double_strip s).d.length = 2 ^ (s.level + 1) + 1 ∧
    (∀ i ≤ 2 ^ s.level, (double_strip s).d.getD (2 * i) 0 = s.d.getD i 0) ∧
    (∀ i < 2 ^ s.level, (double_strip s).d.getD (2 * i + 1) 0 = 0) := by
  refine ⟨rfl, ?_, ?_, ?_⟩
  · rw [double_strip_length, pow_succ]
    ring
  · intro i hi
    rw [double_strip_getD, if_pos (by omega), if_pos (by omega)]
    have h2 : 2 * i / 2 = i := by omega
    rw [h2]
  · intro i hi
    rw [double_strip_getD, if_pos (by omega), if_neg (by omega)]

theorem claim_C4_witness :
    wfStrip ⟨1, [3, 4, 5]⟩ ∧
    ((double_strip ⟨1, [3, 4, 5]⟩).level = (1 : ℕ) + 1 ∧
     (double_strip ⟨1, [3, 4, 5]⟩).d.length = 2 ^ ((1 : ℕ) + 1) + 1 ∧
     (∀ i ≤ 2 ^ (1 : ℕ),
       (double_strip ⟨1, [3, 4, 5]⟩).d.getD (2 * i) 0 =
         (⟨1, [3, 4, 5]⟩ : Strip).d.getD i 0) ∧
     (∀ i < 2 ^ (1 : ℕ),
       (double_strip ⟨1, [3, 4, 5]⟩).d.getD (2 * i + 1) 0 = 0)) :=
  ⟨by decide, claim_C4 ⟨1, [3, 4, 5]⟩ (by decide)⟩

/-- C6: `mid_update left result right scale midscale` with `left` of level
`L-1` and `result`, `right` of level `L` sets, for each `0 ≤ i < 2^(L-1)`,
entry `2i` to `scale*gaussian + (left[i] + right[2i])/2` and entry `2i+1`
to `midscale*gaussian + (left[i] + left[i+1] + right[2i] + right[2i+2])/4`,
and sets the final even entry `2^L` by the same midpoint-average formula
as the interior even entries, from the last `left`/`right` samples
`left[2^(L-1)]` and `right[2^L]`; each written entry uses its own
successive Gaussian draw. -/
theorem claim_C6 (g : ℕ → ℚ) (left nw right : Strip) (scale midscale : ℚ) (k : ℕ)
    (h1 : left.level + 1 = nw.level) (h2 : nw.level = right.level) :
    ∃ r k', mid_update g left nw right scale midscale k = .ok (r, k') ∧
      (∀ i < 2 ^ (nw.level - 1),
        r.d.getD (2 * i) 0 =
          scale * g (k + 2 * i) + (left.d.getD i 0 + right.d.getD (2 * i) 0) / 2 ∧
        r.d.getD (2 * i + 1) 0 =
          midscale * g (k + 2 * i + 1) + (left.d.getD i 0 + left.d.getD (i + 1) 0
            + right.d.getD (2 * i) 0 + right.d.getD (2 * i + 2) 0) / 4) ∧
      r.d.getD (2 ^ nw.level) 0 =
        scale * g (k + 2 ^ nw.level) + (left.d.getD (2 ^ (nw.level - 1)) 0
          + right.d.getD (2 ^ nw.level) 0) / 2 := by
  obtain ⟨r, heq, hlev, hlen, hget⟩ := mid_update_spec g scale midscale k h1 h2
  have hL : nw.level - 1 = left.level := by omega
  have hpow : 2 * 2 ^ left.level = 2 ^ nw.level := by
    rw [← hL]
    exact two_mul_pow_pred (by omega)
  rw [hL]
  refine ⟨r, _, heq, ?_, ?_⟩
  · intro i hi
    constructor
    · rw [hget (2 * i) (by omega), if_pos (by omega)]
      have e1 : 2 * i / 2 = i := by omega
      have e2 : k + (2 * i) = k + 2 * i := by omega
      rw [e1, e2]
    · rw [hget (2 * i + 1) (by omega), if_neg (by omega)]
      have e1 : (2 * i + 1) / 2 = i := by omega
      have e2 : 2 * i + 1 - 1 = 2 * i := by omega
      have e3 : k + (2 * i + 1) = k + 2 * i + 1 := by omega
      have e4 : 2 * i + 1 + 1 = 2 * i + 2 := by omega
      rw [e1, e2, e3, e4]
  · rw [hget (2 ^ nw.level) (by omega), if_pos (by omega)]
    have e1 : 2 ^ nw.level / 2 = 2 ^ left.level := by omega
    rw [e1]

theorem claim_C6_witness :
    ((⟨0, [1, 2]⟩ : Strip).level + 1 = (⟨1, [0, 0, 0]⟩ : Strip).level ∧
     (⟨1, [0, 0, 0]⟩ : Strip).level = (⟨1, [3, 4, 5]⟩ : Strip).level) ∧
    (∃ r k', mid_update (Nat.cast : ℕ → ℚ) ⟨0, [1, 2]⟩ ⟨1, [0, 0, 0]⟩ ⟨1, [3, 4, 5]⟩
        2 3 0 = .ok (r, k') ∧
      (∀ i < 2 ^ ((⟨1, [0, 0, 0]⟩ : Strip).level - 1),
        r.d.getD (2 * i) 0 =
          2 * (Nat.cast : ℕ → ℚ) (0 + 2 * i) + ((⟨0, [1, 2]⟩ : Strip).d.getD i 0
            + (⟨1, [3, 4, 5]⟩ : Strip).d.getD (2 * i) 0) / 2 ∧
        r.d.getD (2 * i + 1) 0 =
          3 * (Nat.cast : ℕ → ℚ) (0 + 2 * i + 1) + ((⟨0, [1, 2]⟩ : Strip).d.getD i 0
            + (⟨0, [1, 2]⟩ : Strip).d.getD (i + 1) 0
            + (⟨1, [3, 4, 5]⟩ : Strip).d.getD (2 * i) 0
            + (⟨1, [3, 4, 5]⟩ : Strip).d.getD (2 * i + 2) 0) / 4) ∧
      r.d.getD (2 ^ (⟨1, [0, 0, 0]⟩ : Strip).level) 0 =
        2 * (Nat.cast : ℕ → ℚ) (0 + 2 ^ (⟨1, [0, 0, 0]⟩ : Strip).level)
          + ((⟨0, [1, 2]⟩ : Strip).d.getD (2 ^ ((⟨1, [0, 0, 0]⟩ : Strip).level - 1)) 0
            + (⟨1, [3, 4, 5]⟩ : Strip).d.getD (2 ^ (⟨1, [0, 0, 0]⟩ : Strip).level) 0) / 2) :=
  ⟨⟨by decide, by decide⟩,
   claim_C6 (Nat.cast : ℕ → ℚ) ⟨0, [1, 2]⟩ ⟨1, [0, 0, 0]⟩ ⟨1, [3, 4, 5]⟩ 2 3 0
     (by decide) (by decide)⟩

/-- C7: `next_strip` on a level-0 Fold never recurses (0 invocations on a
coarser Fold) and consults no state: it returns a freshly built 2-entry
strip whose entries are `mean + scale*gaussian()` from two successive
independent draws `g k` and `g (k+1)`, advancing the draw counter to
`k+2`, and the Fold itself is returned unchanged — nothing is cached
across calls. -/
theorem claim_C7 (g : ℕ → ℚ) (f : Fold) (k : ℕ) (h : f.level = 0) :
    next_strip g f k =
      .ok (⟨0, [f.mean + f.scale * g k, f.mean + f.scale * g (k + 1)]⟩, f, k + 2, 0) := by
  cases f with
  | base p =>
    have hp : p.level = 0 := h
    simp [next_strip, hp, strip0, make_strip, Fold.mean, Fold.scale, Fold.p,
      List.replicate]
  | node p nf =>
    have hp : p.level = 0 := h
    simp [next_strip, hp, strip0, make_strip, Fold.mean, Fold.scale, Fold.p,
      List.replicate]

theorem claim_C7_witness :
    Fold.level (Fold.base ⟨0, 0, false, 5, 2, 3, none, none, none, none⟩) = 0 ∧
    next_strip (fun n => (n : ℚ))
        (Fold.base ⟨0, 0, false, 5, 2, 3, none, none, none, none⟩) 0 =
      .ok (⟨0, [(5 : ℚ) + 2 * 0, (5 : ℚ) + 2 * 1]⟩,
        Fold.base ⟨0, 0, false, 5, 2, 3, none, none, none, none⟩, 0 + 2, 0) :=
  ⟨rfl, claim_C7 (fun n => (n : ℚ))
    (Fold.base ⟨0, 0, false, 5, 2, 3, none, none, none, none⟩) 0 rfl⟩

/-- C8: `mid_update` called with `left.level ≠ result.level - 1` (as C int
arithmetic, taken in `ℤ`) or `result.level ≠ right.level`, and `recalc`
called with three strips not all of the same level, each fail with the
fatal invariant-violation error and produce no output strip at all. -/
theorem claim_C8 :
    (∀ (g : ℕ → ℚ) (left nw right : Strip) (scale midscale : ℚ) (k : ℕ),
      ((left.level : ℤ) ≠ (nw.level : ℤ) - 1 ∨ nw.level ≠ right.level) →
      mid_update g left nw right scale midscale k =
        .error "mid_update: inconsistant sizes") ∧
    (∀ (g : ℕ → ℚ) (left rg right : Strip) (scale : ℚ) (k : ℕ),
      (left.level ≠ rg.level ∨ rg.level ≠ right.level) →
      recalc g left rg right scale k = .error "mid_update: inconsistant sizes") := by
  constructor
  · intro g left nw right scale midscale k h
    simp only [mid_update, if_pos h]
  · intro g left rg right scale k h
    simp only [recalc, if_pos h]

theorem claim_C8_witness :
    mid_update (fun _ => (0 : ℚ)) ⟨1, [0, 0, 0]⟩ ⟨1, [0, 0, 0]⟩ ⟨1, [0, 0, 0]⟩ 1 1 0 =
      .error "mid_update: inconsistant sizes" ∧
    recalc (fun _ => (0 : ℚ)) ⟨0, [0, 0]⟩ ⟨1, [0, 0, 0]⟩ ⟨1, [0, 0, 0]⟩ 1 0 =
      .error "mid_update: inconsistant sizes" :=
  ⟨claim_C8.1 (fun _ => (0 : ℚ)) ⟨1, [0, 0, 0]⟩ ⟨1, [0, 0, 0]⟩ ⟨1, [0, 0, 0]⟩ 1 1 0
     (Or.inl (by decide)),
   claim_C8.2 (fun _ => (0 : ℚ)) ⟨0, [0, 0]⟩ ⟨1, [0, 0, 0]⟩ ⟨1, [0, 0, 0]⟩ 1 0
     (Or.inl (by decide))⟩

theorem allVal_eq_replicate {v : ℚ} {s : Strip} (h : allVal v s) :
    s.d = List.replicate s.d.length v := by
  apply List.eq_replicate_of_mem
  intro b hb
  obtain ⟨i, hi, hbe⟩ := List.mem_iff_getElem.mp hb
  have hv := h i hi
  rw [List.getD_eq_getElem _ _ hi] at hv
  rw [← hbe]
  exact hv

/-- C5: every Strip created by any operation satisfies the size
invariant `length = 2^level + 1`: `make_strip` and `set_strip` build such
strips for every level, `double_strip` preserves the invariant, and every
strip returned by `next_strip` on a level-`L` Fold chain built by
`make_fold` is a level-`L` strip satisfying it, after any number of
calls. -/
theorem claim_C5 :
    (∀ L : ℕ, wfStrip (make_strip L)) ∧
    (∀ (L : ℕ) (v : ℚ), wfStrip (set_strip L v)) ∧
    (∀ s : Strip, wfStrip s → wfStrip (double_strip s)) ∧
    (∀ (levels : ℕ) (smooth : Bool) (length start mean : ℚ) (sfn : ℚ → ℚ × ℚ)
        (g : ℕ → ℚ) (n : ℕ),
      ∃ r, strip_at g n (make_fold levels smooth length start mean sfn) 0 = .ok r ∧
        r.level = levels ∧ wfStrip r) := by
  refine ⟨?_, ?_, ?_, ?_⟩
  · intro L
    simp [wfStrip, make_strip]
  · intro L v
    simp [wfStrip, set_strip]
  · intro s h
    simp only [wfStrip] at h ⊢
    rw [double_strip_length, double_strip_level, pow_succ]
    ring
  · intro levels smooth length start mean sfn g n
    obtain ⟨r, heq, hlev, hlen, _⟩ :=
      strip_at_spec g 0 n (make_fold levels smooth length start mean sfn) 0
        (make_fold_inv levels smooth length start mean sfn)
    refine ⟨r, heq, ?_, ?_⟩
    · rw [hlev, make_fold_level]
    · simp only [wfStrip]
      rw [hlen, hlev]

theorem claim_C5_witness :
    wfStrip (make_strip 2) ∧ wfStrip ⟨1, [1, 2, 3]⟩ ∧
      wfStrip (double_strip ⟨1, [1, 2, 3]⟩) :=
  ⟨claim_C5.1 2, by decide, claim_C5.2.2.1 ⟨1, [1, 2, 3]⟩ (by decide)⟩

/-- C9: for every Fold chain built by `make_fold` and every number of
`next_strip` calls on it, the run succeeds (no fatal branch is ever
taken: the `mid_update`/`recalc` level checks pass, no NULL slot is hit,
and the state is always recognised) and the reachable-state invariant
`FoldInv` holds, which records precisely the kernel preconditions: at
each START the `regen`/`old` slots hold strips of the node's level `L ≥ 1`
(so `side_update`'s shift `1 << (L-1)` is well defined), `mid_update`
receives strips of levels `(L-1, L, L)`, and `recalc` receives three
level-`L` strips. -/
theorem claim_C9 (levels : ℕ) (smooth : Bool) (length start mean : ℚ)
    (sfn : ℚ → ℚ × ℚ) (g : ℕ → ℚ) (n : ℕ) :
    ∃ f k, run_next g n (make_fold levels smooth length start mean sfn) 0 =
        .ok (f, k) ∧ FoldInv f := by
  obtain ⟨f, k, heq, hinv, _⟩ :=
    run_next_inv g 0 n (make_fold levels smooth length start mean sfn) 0
      (make_fold_inv levels smooth length start mean sfn)
  exact ⟨f, k, heq, hinv⟩

/-- C2: for every Fold at level `L > 0` built by `make_fold`, after any
number `n` of `next_strip` calls on it, the next `2k` consecutive calls
invoke `next_strip` on `fold.next` exactly `k` times. -/
theorem claim_C2 (L : ℕ) (smooth : Bool) (length start mean : ℚ)
    (sfn : ℚ → ℚ × ℚ) (g : ℕ → ℚ) (n kk : ℕ) (f : Fold) (kd : ℕ)
    (hL : 1 ≤ L) (hk : 1 ≤ kk)
    (hrun : run_next g n (make_fold L smooth length start mean sfn) 0 = .ok (f, kd)) :
    child_calls_in g (2 * kk) f kd = kk := by
  obtain ⟨f', kd', heq, hinv, _, hlev, _⟩ :=
    run_next_inv g 0 n (make_fold L smooth length start mean sfn) 0
      (make_fold_inv L smooth length start mean sfn)
  rw [hrun] at heq
  have hp := Except.ok.inj heq
  rw [Prod.mk.injEq] at hp
  obtain ⟨hf, hkd⟩ := hp
  subst hf
  subst hkd
  apply child_calls_pair g kk f kd hinv
  rw [hlev, make_fold_level]
  exact hL

theorem claim_C2_witness :
    (1 ≤ 1 ∧ 1 ≤ 1 ∧
      run_next (fun _ => (0 : ℚ)) 0 (make_fold 1 false 1 0 0 (fun _ => (1, 1))) 0 =
        .ok (make_fold 1 false 1 0 0 (fun _ => (1, 1)), 0)) ∧
    child_calls_in (fun _ => (0 : ℚ)) (2 * 1)
      (make_fold 1 false 1 0 0 (fun _ => (1, 1))) 0 = 1 :=
  ⟨⟨by decide, by decide, rfl⟩,
   claim_C2 1 false 1 0 0 (fun _ => (1, 1)) (fun _ => (0 : ℚ)) 0 1
     (make_fold 1 false 1 0 0 (fun _ => (1, 1))) 0 (by decide) (by decide) rfl⟩

/-- C1 counterexample: with the Gaussian source fixed at `0`, smoothing
disabled, `levels = 1`, `start = 1` and `mean = 0`, the very first strip
returned by `next_strip` is the flat `old` strip seeded at `start`, whose
entries are `1`, not `mean = 0` — so the claim fails when it quantifies
over every value of `start` and `mean` separately. -/
theorem claim_C1_cex :
    strip_at (fun _ => (0 : ℚ)) 0 (make_fold 1 false 1 1 0 (fun _ => (1, 1))) 0 =
      .ok ⟨1, [1, 1, 1]⟩ ∧ (1 : ℚ) ≠ 0 := by
  constructor
  · rfl
  · decide

/-- C1 (amended: the seed height `start` must equal `mean`; the code seeds
the initial flat strips at `start`, so for `start ≠ mean` the first strips
equal `start`): with the Gaussian source replaced by the constant-`0`
function and smoothing disabled, for every `levels ≥ 1`, every length and
noise-scale computation, and every `mean`, with `start = mean`, every
entry of every strip returned by `next_strip` equals `mean` exactly,
regardless of call count. -/
theorem claim_C1 (levels : ℕ) (length start mean : ℚ) (sfn : ℚ → ℚ × ℚ) (n : ℕ)
    (hlev : 1 ≤ levels) (hsm : start = mean) :
    ∃ r, strip_at (fun _ => (0 : ℚ)) n
        (make_fold levels false length start mean sfn) 0 = .ok r ∧
      ∀ j < r.d.length, r.d.getD j 0 = mean := by
  subst hsm
  obtain ⟨r, heq, _, _, hval⟩ :=
    strip_at_spec (fun _ => (0 : ℚ)) start n
      (make_fold levels false length start start sfn) 0
      (make_fold_inv levels false length start start sfn)
  exact ⟨r, heq, hval (fun _ => rfl) (make_fold_zinv levels length start sfn)⟩

theorem claim_C1_witness :
    (1 ≤ 1 ∧ (5 : ℚ) = 5) ∧
    (∃ r, strip_at (fun _ => (0 : ℚ)) 3
        (make_fold 1 false 1 5 5 (fun _ => (1, 1))) 0 = .ok r ∧
      ∀ j < r.d.length, r.d.getD j 0 = 5) :=
  ⟨⟨by decide, rfl⟩,
   claim_C1 1 1 5 5 (fun _ => (1, 1)) 3 (by decide) rfl⟩

/-- C3: for `make_fold` with `levels = 1`, smoothing disabled,
`length = 1`, `start = 0`, `mean = 0` (the noise-scale computation from
the length and fractal dimension quantified opaquely, covering
`fdim = 0.5`) and the Gaussian source fixed at `0`: the first call to
`next_strip` returns the 3-entry strip `[0, 0, 0]`, the second call
returns the 3-entry strip `[0, 0, 0]`, and every later call returns the
same 3-entry strip `[0, 0, 0]` again. -/
theorem claim_C3 (sfn : ℚ → ℚ × ℚ) (n : ℕ) :
    strip_at (fun _ => (0 : ℚ)) n (make_fold 1 false 1 0 0 sfn) 0 =
      .ok ⟨1, [0, 0, 0]⟩ := by
  obtain ⟨r, heq, hlev, hlen, hval⟩ :=
    strip_at_spec (fun _ => (0 : ℚ)) 0 n (make_fold 1 false 1 0 0 sfn) 0
      (make_fold_inv 1 false 1 0 0 sfn)
  have hall : allVal 0 r :=
    hval (fun _ => rfl) (make_fold_zinv 1 1 0 sfn)
  rw [make_fold_level] at hlev hlen
  have hd : r.d = [0, 0, 0] := by
    have := allVal_eq_replicate hall
    rw [hlen] at this
    simpa using this
  rw [heq]
  cases r with
  | mk lv d =>
    simp only at hlev hd
    rw [hlev, hd]

theorem next_strip_frame (g : ℕ → ℚ) :
    ∀ (f : Fold) (k : ℕ) (r : Strip) (f' : Fold) (k' c : ℕ),
      next_strip g f k = .ok (r, f', k', c) →
        f'.scale = f.scale ∧ f'.midscale = f.midscale ∧ f'.mean = f.mean ∧
        f'.smooth = f.smooth ∧ f'.level = f.level ∧ skeleton f' = skeleton f ∧
        (1 ≤ f.level → f.state = START →
          f'.old = some r ∧ f'.old = f.old ∧ f'.state = STORE) ∧
        (1 ≤ f.level → f.state = STORE →
          f'.old = f.working ∧ f'.next = f.next ∧ f'.state = START) := by
  intro f
  induction f with
  | base p =>
    intro k r f' k' c heq
    by_cases hl0 : p.level = 0
    · simp only [next_strip, if_pos hl0, Except.ok.injEq, Prod.mk.injEq] at heq
      obtain ⟨h1, h2, h3, h4⟩ := heq
      subst h2
      refine ⟨rfl, rfl, rfl, rfl, rfl, rfl, ?_, ?_⟩ <;>
        · intro hle _
          simp [Fold.level, Fold.p, hl0] at hle
    · by_cases hs : p.state = START
      · simp [next_strip, if_neg hl0, if_pos hs] at heq
      · by_cases hs2 : p.state = STORE
        · cases hrg : p.regen with
          | none =>
            simp [next_strip, if_neg hl0, if_neg hs, hs2, store_ne_start,
              store_phase, hrg] at heq
          | some rg =>
            cases hnw2 : p.new with
            | none =>
              simp [next_strip, if_neg hl0, if_neg hs, hs2, store_ne_start,
                store_phase, hrg, hnw2] at heq
            | some nw2 =>
              simp only [next_strip, if_neg hl0, if_neg hs, hs2,
                if_neg store_ne_start, eq_self_iff_true, if_true, store_phase,
                hrg, hnw2, Except.ok.injEq, Prod.mk.injEq] at heq
              obtain ⟨h1, h2, h3, h4⟩ := heq
              subst h2
              refine ⟨rfl, rfl, rfl, rfl, rfl, rfl, ?_, ?_⟩
              · intro _ hcon
                exact absurd hcon hs
              · intro _ _
                exact ⟨rfl, rfl, rfl⟩
        · simp [next_strip, if_neg hl0, if_neg hs, if_neg hs2] at heq
  | node p nf ih =>
    intro k r f' k' c heq
    by_cases hl0 : p.level = 0
    · simp only [next_strip, if_pos hl0, Except.ok.injEq, Prod.mk.injEq] at heq
      obtain ⟨h1, h2, h3, h4⟩ := heq
      subst h2
      refine ⟨rfl, rfl, rfl, rfl, rfl, rfl, ?_, ?_⟩ <;>
        · intro hle _
          simp [Fold.level, Fold.p, hl0] at hle
    · by_cases hs : p.state = START
      · cases hN : next_strip g nf k with
        | error e =>
          simp [next_strip, if_neg hl0, hs, hN] at heq
        | ok t =>
          obtain ⟨nw1, nf', k1, c0⟩ := t
          obtain ⟨_, _, _, _, _, hskelN, _, _⟩ := ih k nw1 nf' k1 c0 hN
          cases hrg : p.regen with
          | none =>
            simp [next_strip, if_neg hl0, hs, hN, start_rest, hrg] at heq
          | some rg =>
            cases hmu : mid_update g nw1 (make_strip p.level)
                ((side_update g rg p.scale k1).1) p.scale p.midscale
                ((side_update g rg p.scale k1).2) with
            | error e =>
              simp [next_strip, if_neg hl0, hs, hN, start_rest, hrg, hmu] at heq
            | ok t2 =>
              obtain ⟨wk1, k3⟩ := t2
              by_cases hsmo : p.smooth
              · cases hod : p.old with
                | none =>
                  simp [next_strip, if_neg hl0, hs, hN, start_rest, hrg, hmu,
                    hsmo, hod] at heq
                | some od =>
                  cases hrc : recalc g wk1 ((side_update g rg p.scale k1).1) od
                      p.scale k3 with
                  | error e =>
                    simp [next_strip, if_neg hl0, hs, hN, start_rest, hrg, hmu,
                      hsmo, hod, hrc] at heq
                  | ok t3 =>
                    obtain ⟨rg2, k4⟩ := t3
                    simp only [next_strip, if_neg hl0, hs, eq_self_iff_true,
                      if_true, hN, start_rest, hrg, hmu, if_pos hsmo, hod, hrc,
                      Except.ok.injEq, Prod.mk.injEq] at heq
                    obtain ⟨h1, h2, h3, h4⟩ := heq
                    subst h1
                    subst h2
                    refine ⟨rfl, rfl, rfl, rfl, rfl, ?_, ?_, ?_⟩
                    · simp only [skeleton]
                      rw [hskelN]
                    · intro _ _
                      exact ⟨rfl, hod.symm, rfl⟩
                    · intro _ hcon
                      have hcon2 : p.state = STORE := hcon
                      rw [hs] at hcon2
                      simp [START, STORE] at hcon2
              · cases hod : p.old with
                | none =>
                  simp [next_strip, if_neg hl0, hs, hN, start_rest, hrg, hmu,
                    hsmo, hod] at heq
                | some od =>
                  simp only [next_strip, if_neg hl0, hs, eq_self_iff_true,
                    if_true, hN, start_rest, hrg, hmu, if_neg hsmo, hod,
                    Except.ok.injEq, Prod.mk.injEq] at heq
                  obtain ⟨h1, h2, h3, h4⟩ := heq
                  subst h1
                  subst h2
                  refine ⟨rfl, rfl, rfl, rfl, rfl, ?_, ?_, ?_⟩
                  · simp only [skeleton]
                    rw [hskelN]
                  · intro _ _
                    exact ⟨rfl, hod.symm, rfl⟩
                  · intro _ hcon
                    have hcon2 : p.state = STORE := hcon
                    rw [hs] at hcon2
                    simp [START, STORE] at hcon2
      · by_cases hs2 : p.state = STORE
        · cases hrg : p.regen with
          | none =>
            simp [next_strip, if_neg hl0, if_neg hs, hs2, store_ne_start,
              store_phase, hrg] at heq
          | some rg =>
            cases hnw2 : p.new with
            | none =>
              simp [next_strip, if_neg hl0, if_neg hs, hs2, store_ne_start,
                store_phase, hrg, hnw2] at heq
            | some nw2 =>
              simp only [next_strip, if_neg hl0, if_neg hs, hs2,
                if_neg store_ne_start, eq_self_iff_true, if_true, store_phase,
                hrg, hnw2, Except.ok.injEq, Prod.mk.injEq] at heq
              obtain ⟨h1, h2, h3, h4⟩ := heq
              subst h2
              refine ⟨rfl, rfl, rfl, rfl, rfl, rfl, ?_, ?_⟩
              · intro _ hcon
                exact absurd hcon hs
              · intro _ _
                exact ⟨rfl, rfl, rfl⟩
        · simp [next_strip, if_neg hl0, if_neg hs, if_neg hs2] at heq

/-- C10: for a Fold of level > 0, after a START-phase `next_strip` call
the Fold's `old` slot still holds the very strip just returned to the
caller (`f'.old = some r` and the slot is unchanged, `f'.old = f.old`),
so Fold and caller simultaneously reference one strip; the slot is only
reassigned by the subsequent STORE-phase call (`f'.old = f.working`).
Both phases leave `scale`, `midscale`, `mean`, `smooth` and `level`
unchanged, and the `next` pointer slot is untouched: in STORE it is
literally unchanged, and in START it still refers to the same chain of
Fold nodes, whose identity (the `skeleton` of immutable per-node
parameters) is preserved even though the pointed-to node's mutable state
advances. -/
theorem claim_C10 (g : ℕ → ℚ) (f : Fold) (k : ℕ) (r : Strip) (f' : Fold)
    (k' c : ℕ) (hl : 1 ≤ f.level)
    (heq : next_strip g f k = .ok (r, f', k', c)) :
    (f.state = START → f'.old = some r ∧ f'.old = f.old ∧ f'.state = STORE) ∧
    (f.state = STORE → f'.old = f.working ∧ f'.next = f.next ∧ f'.state = START) ∧
    f'.scale = f.scale ∧ f'.midscale = f.midscale ∧ f'.mean = f.mean ∧
    f'.smooth = f.smooth ∧ f'.level = f.level ∧ skeleton f' = skeleton f := by
  obtain ⟨h1, h2, h3, h4, h5, h6, h7, h8⟩ := next_strip_frame g f k r f' k' c heq
  exact ⟨h7 hl, h8 hl, h1, h2, h3, h4, h5, h6⟩

theorem claim_C10_witness :
    (1 ≤ Fold.level (Fold.base ⟨1, 1, false, 0, 1, 1, some ⟨0, [1, 2]⟩,
        some ⟨1, [4, 5, 6]⟩, some ⟨1, [7, 8, 9]⟩, some ⟨1, [0, 0, 0]⟩⟩) ∧
     next_strip (fun _ => (0 : ℚ))
        (Fold.base ⟨1, 1, false, 0, 1, 1, some ⟨0, [1, 2]⟩, some ⟨1, [4, 5, 6]⟩,
          some ⟨1, [7, 8, 9]⟩, some ⟨1, [0, 0, 0]⟩⟩) 0 =
      .ok (⟨1, [7, 8, 9]⟩,
        Fold.base ⟨1, 0, false, 0, 1, 1, none, none, some ⟨1, [1, 0, 2]⟩,
          some ⟨1, [4, 5, 6]⟩⟩, 0, 0)) ∧
    (((Fold.base ⟨1, 1, false, 0, 1, 1, some ⟨0, [1, 2]⟩, some ⟨1, [4, 5, 6]⟩,
          some ⟨1, [7, 8, 9]⟩, some ⟨1, [0, 0, 0]⟩⟩ : Fold).state = START →
        (Fold.base ⟨1, 0, false, 0, 1, 1, none, none, some ⟨1, [1, 0, 2]⟩,
          some ⟨1, [4, 5, 6]⟩⟩ : Fold).old = some ⟨1, [7, 8, 9]⟩ ∧
        (Fold.base ⟨1, 0, false, 0, 1, 1, none, none, some ⟨1, [1, 0, 2]⟩,
          some ⟨1, [4, 5, 6]⟩⟩ : Fold).old =
          (Fold.base ⟨1, 1, false, 0, 1, 1, some ⟨0, [1, 2]⟩, some ⟨1, [4, 5, 6]⟩,
            some ⟨1, [7, 8, 9]⟩, some ⟨1, [0, 0, 0]⟩⟩ : Fold).old ∧
        (Fold.base ⟨1, 0, false, 0, 1, 1, none, none, some ⟨1, [1, 0, 2]⟩,
          some ⟨1, [4, 5, 6]⟩⟩ : Fold).state = STORE) ∧
     ((Fold.base ⟨1, 1, false, 0, 1, 1, some ⟨0, [1, 2]⟩, some ⟨1, [4, 5, 6]⟩,
          some ⟨1, [7, 8, 9]⟩, some ⟨1, [0, 0, 0]⟩⟩ : Fold).state = STORE →
        (Fold.base ⟨1, 0, false, 0, 1, 1, none, none, some ⟨1, [1, 0, 2]⟩,
          some ⟨1, [4, 5, 6]⟩⟩ : Fold).old =
          (Fold.base ⟨1, 1, false, 0, 1, 1, some ⟨0, [1, 2]⟩, some ⟨1, [4, 5, 6]⟩,
            some ⟨1, [7, 8, 9]⟩, some ⟨1, [0, 0, 0]⟩⟩ : Fold).working ∧
        (Fold.base ⟨1, 0, false, 0, 1, 1, none, none, some ⟨1, [1, 0, 2]⟩,
          some ⟨1, [4, 5, 6]⟩⟩ : Fold).next =
          (Fold.base ⟨1, 1, false, 0, 1, 1, some ⟨0, [1, 2]⟩, some ⟨1, [4, 5, 6]⟩,
            some ⟨1, [7, 8, 9]⟩, some ⟨1, [0, 0, 0]⟩⟩ : Fold).next ∧
        (Fold.base ⟨1, 0, false, 0, 1, 1, none, none, some ⟨1, [1, 0, 2]⟩,
          some ⟨1, [4, 5, 6]⟩⟩ : Fold).state = START) ∧
     (Fold.base ⟨1, 0, false, 0, 1, 1, none, none, some ⟨1, [1, 0, 2]⟩,
        some ⟨1, [4, 5, 6]⟩⟩ : Fold).scale =
       (Fold.base ⟨1, 1, false, 0, 1, 1, some ⟨0, [1, 2]⟩, some ⟨1, [4, 5, 6]⟩,
          some ⟨1, [7, 8, 9]⟩, some ⟨1, [0, 0, 0]⟩⟩ : Fold).scale ∧
     (Fold.base ⟨1, 0, false, 0, 1, 1, none, none, some ⟨1, [1, 0, 2]⟩,
        some ⟨1, [4, 5, 6]⟩⟩ : Fold).midscale =
       (Fold.base ⟨1, 1, false, 0, 1, 1, some ⟨0, [1, 2]⟩, some ⟨1, [4, 5, 6]⟩,
          some ⟨1, [7, 8, 9]⟩, some ⟨1, [0, 0, 0]⟩⟩ : Fold).midscale ∧
     (Fold.base ⟨1, 0, false, 0, 1, 1, none, none, some ⟨1, [1, 0, 2]⟩,
        some ⟨1, [4, 5, 6]⟩⟩ : Fold).mean =
       (Fold.base ⟨1, 1, false, 0, 1, 1, some ⟨0, [1, 2]⟩, some ⟨1, [4, 5, 6]⟩,
          some ⟨1, [7, 8, 9]⟩, some ⟨1, [0, 0, 0]⟩⟩ : Fold).mean ∧
     (Fold.base ⟨1, 0, false, 0, 1, 1, none, none, some ⟨1, [1, 0, 2]⟩,
        some ⟨1, [4, 5, 6]⟩⟩ : Fold).smooth =
       (Fold.base ⟨1, 1, false, 0, 1, 1, some ⟨0, [1, 2]⟩, some ⟨1, [4, 5, 6]⟩,
          some ⟨1, [7, 8, 9]⟩, some ⟨1, [0, 0, 0]⟩⟩ : Fold).smooth ∧
     (Fold.base ⟨1, 0, false, 0, 1, 1, none, none, some ⟨1, [1, 0, 2]⟩,
        some ⟨1, [4, 5, 6]⟩⟩ : Fold).level =
       (Fold.base ⟨1, 1, false, 0, 1, 1, some ⟨0, [1, 2]⟩, some ⟨1, [4, 5, 6]⟩,
          some ⟨1, [7, 8, 9]⟩, some ⟨1, [0, 0, 0]⟩⟩ : Fold).level ∧
     skeleton (Fold.base ⟨1, 0, false, 0, 1, 1, none, none, some ⟨1, [1, 0, 2]⟩,
        some ⟨1, [4, 5, 6]⟩⟩) =
       skeleton (Fold.base ⟨1, 1, false, 0, 1, 1, some ⟨0, [1, 2]⟩,
          some ⟨1, [4, 5, 6]⟩, some ⟨1, [7, 8, 9]⟩, some ⟨1, [0, 0, 0]⟩⟩)) :=
  ⟨⟨by decide, rfl⟩,
   claim_C10 (fun _ => (0 : ℚ))
     (Fold.base ⟨1, 1, false, 0, 1, 1, some ⟨0, [1, 2]⟩, some ⟨1, [4, 5, 6]⟩,
       some ⟨1, [7, 8, 9]⟩, some ⟨1, [0, 0, 0]⟩⟩) 0 ⟨1, [7, 8, 9]⟩
     (Fold.base ⟨1, 0, false, 0, 1, 1, none, none, some ⟨1, [1, 0, 2]⟩,
       some ⟨1, [4, 5, 6]⟩⟩) 0 0 (by decide) rfl⟩
